import Mathlib

/-!
Verification of the Electron/React/TypeScript Ollama chat client.

The development shallowly embeds the conversation store (Dexie tables in
src/unnamed/part_000), the chat orchestration of the ChatWindow component
(handleSendMessage, handleEditMessage, generateTitle, loadMessages in
src/unnamed/part_000) and the streaming newline-delimited JSON decoders of
the OllamaApi service (streamChat, streamGenerate, pullModel and the
per-category AbortController bookkeeping in src/unnamed/part_003).

Conventions of the embedding:
- JavaScript Date timestamps are natural numbers; each call of Date within
  an operation is a tick of an explicit clock argument.
- The transport hands the decoder text chunks (TextDecoder output), which
  we represent as List Char; JSON.parse is an external runtime function and
  is a parameter of every decoder definition.
- Dexie auto-increment keys are modelled by nextConvId / nextMsgId counters.
-/

/-- Role of a chat message, the role field of IMessage in src/unnamed/part_000. -/
inductive Role where
  | user
  | assistant
deriving DecidableEq

/-- A row of the messages table (interface IMessage, src/unnamed/part_000 lines 12-19). -/
structure IMessage where
  id : Nat
  conversationId : Nat
  role : Role
  content : List Char
  createdAt : Nat
deriving DecidableEq

/-- A row of the conversations table (interface IConversation, src/unnamed/part_000 lines 3-10). -/
structure IConversation where
  id : Nat
  title : List Char
  model : List Char
  createdAt : Nat
  updatedAt : Nat
deriving DecidableEq

/-- The OllamaChatDB Dexie database: the two tables plus the auto-increment
counters of their primary keys. -/
structure DB where
  conversations : List IConversation
  messages : List IMessage
  nextConvId : Nat
  nextMsgId : Nat
deriving DecidableEq

/-- Dexie db.conversations.add with an auto-incremented key, returning the new key. -/
def DB.addConversation (db : DB) (title model : List Char) (createdAt updatedAt : Nat) :
    DB × Nat :=
  let id := db.nextConvId
  ({ db with
      conversations := db.conversations ++ [⟨id, title, model, createdAt, updatedAt⟩],
      nextConvId := id + 1 }, id)

/-- Dexie db.conversations.update applied at a call site that changes the
fields given by f on the row with the given key. -/
def DB.updateConversation (db : DB) (id : Nat) (f : IConversation → IConversation) : DB :=
  { db with conversations := db.conversations.map fun c => if c.id == id then f c else c }

/-- Dexie db.messages.add with an auto-incremented key, returning the new key. -/
def DB.addMessage (db : DB) (conversationId : Nat) (role : Role) (content : List Char)
    (createdAt : Nat) : DB × Nat :=
  let id := db.nextMsgId
  ({ db with
      messages := db.messages ++ [⟨id, conversationId, role, content, createdAt⟩],
      nextMsgId := id + 1 }, id)

/-- Dexie db.messages.update applied at a call site that changes the fields
given by f on the row with the given key. -/
def DB.updateMessage (db : DB) (id : Nat) (f : IMessage → IMessage) : DB :=
  { db with messages := db.messages.map fun m => if m.id == id then f m else m }

/-- Dexie db.messages.bulkDelete: removes every row whose key is in ids. -/
def DB.bulkDeleteMessages (db : DB) (ids : List Nat) : DB :=
  { db with messages := db.messages.filter fun m => !(ids.contains m.id) }

/-- Dexie db.messages.delete of a single key. -/
def DB.deleteMessage (db : DB) (id : Nat) : DB :=
  { db with messages := db.messages.filter fun m => !(m.id == id) }

/-- Dexie db.messages.where conversationId equals cid, as a row list. -/
def DB.messagesWhereConversation (db : DB) (cid : Nat) : List IMessage :=
  db.messages.filter fun m => m.conversationId == cid

/-- loadConversations (src/unnamed/part_003 lines 435-438):
db.conversations.orderBy updatedAt, reversed, so most recently updated first. -/
def loadConversations (db : DB) : List IConversation :=
  ((db.conversations.mergeSort fun a b => a.updatedAt ≤ b.updatedAt)).reverse

/-- loadMessages of the ChatWindow component (src/unnamed/part_000 lines 110-119):
messages of one conversation sorted by createdAt ascending. -/
def loadMessages (db : DB) (conversationId : Nat) : List IMessage :=
  (db.messages.filter fun m => m.conversationId == conversationId).mergeSort
    fun a b => a.createdAt ≤ b.createdAt

/-- Modelled Dexie rw transaction: the body commits as a whole, or an
interrupted execution leaves the database unchanged. This encodes the
all-or-nothing contract of db.transaction used by handleDeleteConversation. -/
def dexieTransaction (db : DB) (interrupted : Bool) (body : DB → DB) : DB :=
  if interrupted then db else body db

/-- handleDeleteConversation (src/unnamed/part_003 lines 461-475): inside one
rw transaction, delete all messages of the conversation, then the
conversation row itself. -/
def handleDeleteConversation (db : DB) (conversationId : Nat) (interrupted : Bool) : DB :=
  dexieTransaction db interrupted fun d =>
    let d1 := { d with
      messages := d.messages.filter fun m => !(m.conversationId == conversationId) }
    { d1 with
      conversations := d1.conversations.filter fun c => !(c.id == conversationId) }

/-- handleEditMessage (src/unnamed/part_000 lines 250-292). The message is
looked up in the React messages state; only user messages are editable; all
rows of the same conversation with a strictly later createdAt are bulk
deleted; the edited row gets the new content and a refreshed createdAt. -/
def handleEditMessage (db : DB) (messagesState : List IMessage) (messageId : Nat)
    (newContent : List Char) (now : Nat) : DB :=
  match messagesState.find? (fun m => m.id == messageId) with
  | none => db
  | some messageToEdit =>
    if messageToEdit.role != Role.user then db
    else
      let messagesAfter := (db.messagesWhereConversation messageToEdit.conversationId).filter
        fun m => decide (messageToEdit.createdAt < m.createdAt)
      let idsToDelete := messagesAfter.map IMessage.id
      let db1 := if idsToDelete.length > 0 then db.bulkDeleteMessages idsToDelete else db
      db1.updateMessage messageId fun m => { m with content := newContent, createdAt := now }

/-- Whitespace test used to model the JavaScript String trim on the
characters that occur in this embedding. -/
def isWsChar (c : Char) : Bool :=
  c == ' ' || c == '\t' || c == '\n' || c == '\r'

/-- Model of the JavaScript String trim over List Char. -/
def trimL (l : List Char) : List Char :=
  ((l.dropWhile isWsChar).reverse.dropWhile isWsChar).reverse

/-- Model of the JavaScript String split on a single separator character:
every segment between separators, including empty segments and the final
segment. -/
def splitOnChar (sep : Char) : List Char → List (List Char)
  | [] => [[]]
  | c :: cs =>
    if c = sep then [] :: splitOnChar sep cs
    else
      match splitOnChar sep cs with
      | [] => [[c]]
      | l :: ls => (c :: l) :: ls

/-- Model of the JavaScript Array join with a one-character separator. -/
def joinWords (sep : Char) : List (List Char) → List Char
  | [] => []
  | [w] => w
  | w :: w2 :: ws => w ++ sep :: joinWords sep (w2 :: ws)

/-- generateTitle (src/unnamed/part_000 lines 125-131): the first five
space-separated words of the first message, with a trailing ellipsis when
there are more than five. -/
def generateTitle (firstMessageContent : List Char) : List Char :=
  let words := splitOnChar ' ' firstMessageContent
  joinWords ' ' (words.take 5) ++ (if words.length > 5 then ("...").toList else [])

/-- The fields of an OllamaChatStreamChunk observed by the send loop:
content is the optional chunk.message content, plus the done flag and the
optional done_reason. -/
structure StreamChunk where
  content : Option (List Char)
  done : Bool
  done_reason : Option (List Char)
deriving DecidableEq

/-- Error text set when a done chunk carries an abnormal done_reason
(src/unnamed/part_000 lines 207-214); a missing, empty or stop reason is
normal completion. -/
def doneReasonError (c : StreamChunk) : Option (List Char) :=
  match c.done_reason with
  | none => none
  | some r =>
    if r = ("stop").toList ∨ r = [] then none
    else some (("Stream finished with reason: ").toList ++ r)

/-- The for-await consumption loop of handleSendMessage
(src/unnamed/part_000 lines 202-215): accumulate the content of each chunk,
and break at the first chunk with done set. Returns the accumulated text,
whether a done chunk was seen, and the error text from its done_reason. -/
def consumeChunks : List StreamChunk → List Char → List Char × Bool × Option (List Char)
  | [], acc => (acc, false, none)
  | c :: rest, acc =>
    let acc2 :=
      match c.content with
      | some s => if s = [] then acc else acc ++ s
      | none => acc
    if c.done then (acc2, true, doneReasonError c)
    else consumeChunks rest acc2

/-- The render-time React state and props captured by the closure of one
handleSendMessage (or handleEditMessage) invocation. closureAssistantMessageId
is the currentAssistantMessageId state constant captured when the component
rendered; the setCurrentAssistantMessageId calls inside handleSendMessage do
not change it. -/
structure SendEnv where
  inputMessage : List Char
  isLoading : Bool
  selectedModelName : List Char
  conversation : Option IConversation
  closureAssistantMessageId : Option Nat
  priorError : Option (List Char)
deriving DecidableEq

/-- Observable result of one handleSendMessage invocation: the database, the
final user-visible error text, whether a network request was issued, and the
advanced clock. -/
structure SendOutcome where
  db : DB
  error : Option (List Char)
  requestIssued : Bool
  clock : Nat
deriving DecidableEq

/-- handleSendMessage (src/unnamed/part_000 lines 133-247). The streamed
response is the chunks argument; streamErr is the error the generator throws
after its last yielded chunk, if any (an aborted generator returns silently,
so it ends with streamErr none). The catch block deletes the message whose
key is the render-time closureAssistantMessageId, exactly as the source
reads the currentAssistantMessageId state constant there. -/
def handleSendMessage (env : SendEnv) (db : DB) (clock : Nat)
    (chunks : List StreamChunk) (streamErr : Option (List Char)) : SendOutcome :=
  if trimL env.inputMessage = [] ∨ env.isLoading = true then
    ⟨db, env.priorError, false, clock⟩
  else if env.selectedModelName = [] then
    ⟨db, some (("Please select a model first.").toList), false, clock⟩
  else
    let userMessageContent := trimL env.inputMessage
    let step1 : DB × Nat × Nat :=
      match env.conversation with
      | none =>
        let r := db.addConversation (("New Conversation...").toList)
          env.selectedModelName clock clock
        let db2 := r.1.updateConversation r.2
          fun c => { c with title := generateTitle userMessageContent }
        (db2, clock + 1, r.2)
      | some cc =>
        if cc.model ≠ env.selectedModelName then
          (db.updateConversation cc.id
            (fun c => { c with model := env.selectedModelName, updatedAt := clock }),
           clock + 1, cc.id)
        else
          (db.updateConversation cc.id (fun c => { c with updatedAt := clock }),
           clock + 1, cc.id)
    match step1 with
    | (db1, clock1, conversationIdToUse) =>
      let r1 := db1.addMessage conversationIdToUse Role.user userMessageContent clock1
      let db2 := r1.1
      let clock2 := clock1 + 1
      let r2 := db2.addMessage conversationIdToUse Role.assistant (("...").toList) clock2
      let db3 := r2.1
      let assistantMsgId := r2.2
      let clock3 := clock2 + 1
      match consumeChunks chunks [] with
      | (assistantResponseContent, sawDone, doneErr) =>
        match streamErr, sawDone with
        | some emsg, false =>
          let db4 :=
            match env.closureAssistantMessageId with
            | some cid => db3.deleteMessage cid
            | none => db3
          ⟨db4, some emsg, true, clock3⟩
        | _, _ =>
          let db4 := db3.updateMessage assistantMsgId
            fun m => { m with content := assistantResponseContent, createdAt := clock3 }
          ⟨db4, doneErr, true, clock3 + 1⟩

/-- Helper of splitLines: prepend a non-newline character to the first
completed line, or to the trailing partial line when no line is completed. -/
def consFirstLine (c : Char) : List (List Char) × List Char → List (List Char) × List Char
  | ([], p) => ([], c :: p)
  | (l :: ls, p) => ((c :: l) :: ls, p)

/-- Model of buf.split on the newline character followed by lines.pop: the
completed (newline-terminated) lines, and the trailing partial line kept as
the next buffer (src/unnamed/part_003 lines 195-196). -/
def splitLines : List Char → List (List Char) × List Char
  | [] => ([], [])
  | c :: cs =>
    if c = '\n' then ([] :: (splitLines cs).1, (splitLines cs).2)
    else consFirstLine c (splitLines cs)

/-- A JavaScript value thrown or rejected with, identified the way the
decoder catch blocks identify it: by its name property. abortError is a
DOMException whose name is AbortError; jsError is an Error (name Error)
carrying a message; stringReason is a plain string value — such as the
abort reason strings this service passes to every abort call — which has
no name property at all. -/
inductive JsError where
  | abortError
  | jsError (msg : List Char)
  | stringReason (s : List Char)
deriving DecidableEq

/-- How the underlying byte stream ends after its data chunks: a normal end
of stream, or a read that rejects with a thrown JavaScript value. Per the
DOM contract an aborted fetch rejects with the abort reason; every abort
call of this service (src/unnamed/part_003 lines 160, 214, 223, 275, 286,
348) passes a plain string reason, so the reads it aborts reject with that
string value. -/
inductive StreamTail where
  | eos
  | failed (e : JsError)
deriving DecidableEq

/-- How the try body of a stream generator ends, before the catch clause. -/
inductive LoopEnd where
  | completed
  | parseThrow (line : List Char)
  | readThrow (e : JsError)
deriving DecidableEq

/-- What the consumer of a stream generator observes after the catch clause:
normal completion, a silent return caused by an AbortError, or a rethrown
exception. -/
inductive StreamOutcome where
  | completed
  | aborted
  | threwParse (line : List Char)
  | threw (e : JsError)
deriving DecidableEq

/-- The inner for loop of the chat and generate decoders over the completed
lines of one chunk (src/unnamed/part_003 lines 197-202): each line that is
nonempty after trimming is parsed; a parse failure throws and nothing after
the failing line is yielded. Returns the yielded values and the failing line
if any. -/
def processLines {α : Type} (parse : List Char → Option α) :
    List (List Char) → List α × Option (List Char)
  | [] => ([], none)
  | line :: rest =>
    if trimL line = [] then processLines parse rest
    else
      match parse line with
      | some v =>
        let r := processLines parse rest
        (v :: r.1, r.2)
      | none => ([], some line)

/-- The read/buffer/split loop shared verbatim by streamChat
(src/unnamed/part_003 lines 181-203) and streamGenerate (lines 244-265):
append each chunk to the carry buffer, split into lines keeping the last
partial line, decode the completed lines, and at end of stream flush the
trimmed residual buffer once; a rejected read rethrows its exception. -/
def ndjsonLoop {α : Type} (parse : List Char → Option α) :
    List (List Char) → StreamTail → List Char → List α × LoopEnd
  | [], StreamTail.eos, buffer =>
    if trimL buffer = [] then ([], LoopEnd.completed)
    else
      match parse (trimL buffer) with
      | some v => ([v], LoopEnd.completed)
      | none => ([], LoopEnd.parseThrow buffer)
  | [], StreamTail.failed e, _ => ([], LoopEnd.readThrow e)
  | chunk :: rest, tail, buffer =>
    let split := splitLines (buffer ++ chunk)
    match processLines parse split.1 with
    | (vs, some bad) => (vs, LoopEnd.parseThrow bad)
    | (vs, none) =>
      let r := ndjsonLoop parse rest tail split.2
      (vs ++ r.1, r.2)

/-- The catch clause wrapping the chat and generate loops
(src/unnamed/part_003 lines 204-206): a value whose name is AbortError makes
the generator return silently; every other value — an Error as well as a
plain string, whose name is undefined — is rethrown. -/
def applyCatch {α : Type} : List α × LoopEnd → List α × StreamOutcome
  | (vs, LoopEnd.completed) => (vs, StreamOutcome.completed)
  | (vs, LoopEnd.parseThrow l) => (vs, StreamOutcome.threwParse l)
  | (vs, LoopEnd.readThrow JsError.abortError) => (vs, StreamOutcome.aborted)
  | (vs, LoopEnd.readThrow (JsError.jsError m)) => (vs, StreamOutcome.threw (JsError.jsError m))
  | (vs, LoopEnd.readThrow (JsError.stringReason s)) =>
    (vs, StreamOutcome.threw (JsError.stringReason s))

/-- What the consumer of the streamChat generator observes: the decode loop
wrapped in the catch clause, started with an empty buffer. -/
def streamChatRun {α : Type} (parse : List Char → Option α)
    (chunks : List (List Char)) (tail : StreamTail) : List α × StreamOutcome :=
  applyCatch (ndjsonLoop parse chunks tail [])

/-- What the consumer of the streamGenerate generator observes; the loop and
catch of streamGenerate are verbatim those of streamChat. -/
def streamGenerateRun {α : Type} (parse : List Char → Option α)
    (chunks : List (List Char)) (tail : StreamTail) : List α × StreamOutcome :=
  applyCatch (ndjsonLoop parse chunks tail [])

/-- A decoded pull status object: its status text and optional error field
(interface PullModelStatus, src/unnamed/part_003 lines 67-73). -/
structure PullModelStatus where
  status : List Char
  error : Option (List Char)
deriving DecidableEq

/-- JavaScript truthiness of the optional error field of a pull status. -/
def errTruthy : Option (List Char) → Bool
  | some e => !(e.isEmpty)
  | none => false

/-- The inner for loop of the pullModel decoder (src/unnamed/part_003 lines
323-334): a parsed status is yielded and ends the generator when terminal
(status success, or a truthy error field); a line that fails to parse yields
an error-status object and decoding continues with the next line. Returns
the yielded statuses and whether the loop returned early. -/
def processPullLines (parse : List Char → Option PullModelStatus)
    (emsg : List Char → List Char) :
    List (List Char) → List PullModelStatus × Bool
  | [] => ([], false)
  | line :: rest =>
    if trimL line = [] then processPullLines parse emsg rest
    else
      match parse line with
      | some statusUpdate =>
        if statusUpdate.status = ("success").toList ∨ errTruthy statusUpdate.error then
          ([statusUpdate], true)
        else
          let r := processPullLines parse emsg rest
          (statusUpdate :: r.1, r.2)
      | none =>
        let r := processPullLines parse emsg rest
        (⟨("error parsing line").toList, some (emsg line)⟩ :: r.1, r.2)

/-- The read/buffer/split loop of pullModel (src/unnamed/part_003 lines
311-335): like the chat loop, but a failing line is not fatal, and an
unparsable residual buffer at end of stream is dropped with only a console
message. -/
def pullLoop (parse : List Char → Option PullModelStatus)
    (emsg : List Char → List Char) :
    List (List Char) → StreamTail → List Char → List PullModelStatus × LoopEnd
  | [], StreamTail.eos, buffer =>
    if trimL buffer = [] then ([], LoopEnd.completed)
    else
      match parse (trimL buffer) with
      | some v => ([v], LoopEnd.completed)
      | none => ([], LoopEnd.completed)
  | [], StreamTail.failed e, _ => ([], LoopEnd.readThrow e)
  | chunk :: rest, tail, buffer =>
    let split := splitLines (buffer ++ chunk)
    match processPullLines parse emsg split.1 with
    | (vs, true) => (vs, LoopEnd.completed)
    | (vs, false) =>
      let r := pullLoop parse emsg rest tail split.2
      (vs ++ r.1, r.2)

/-- The message attached to the error status yielded by the pull catch
clause for a non-abort exception. -/
def pullCatchMessage (e : List Char) : List Char :=
  if e.isEmpty then ("Unknown pull error").toList else e

/-- What the consumer of the pullModel generator observes
(src/unnamed/part_003 lines 336-343): an AbortError returns silently; any
other exception first yields an error status and is then rethrown. -/
def pullModelRun (parse : List Char → Option PullModelStatus)
    (emsg : List Char → List Char) (chunks : List (List Char)) (tail : StreamTail) :
    List PullModelStatus × StreamOutcome :=
  match pullLoop parse emsg chunks tail [] with
  | (vs, LoopEnd.completed) => (vs, StreamOutcome.completed)
  | (vs, LoopEnd.parseThrow l) => (vs, StreamOutcome.threwParse l)
  | (vs, LoopEnd.readThrow JsError.abortError) => (vs, StreamOutcome.aborted)
  | (vs, LoopEnd.readThrow (JsError.jsError m)) =>
    (vs ++ [⟨("error").toList, some (pullCatchMessage m)⟩],
     StreamOutcome.threw (JsError.jsError m))
  | (vs, LoopEnd.readThrow (JsError.stringReason s)) =>
    (vs ++ [⟨("error").toList, some (("Unknown pull error").toList)⟩],
     StreamOutcome.threw (JsError.stringReason s))

/-- The per-category AbortController fields of the OllamaApi class
(src/unnamed/part_003 lines 108-110), with controllers named by identifiers
and the set of identifiers whose abort method has been called. -/
structure OllamaApiState where
  currentChatController : Option Nat
  currentGenerateController : Option Nat
  currentPullController : Option Nat
  abortedIds : List Nat
  nextControllerId : Nat
deriving DecidableEq

/-- Calling abort on an optional controller handle. -/
def abortController (st : OllamaApiState) (c : Option Nat) : OllamaApiState :=
  match c with
  | some id => { st with abortedIds := id :: st.abortedIds }
  | none => st

/-- The prologue of streamChat (src/unnamed/part_003 lines 159-171): abort
the outstanding chat controller if any, then register a fresh controller and
issue the fetch with its signal. Returns the identifier of the controller
whose signal the new request uses. -/
def beginChatRequest (st : OllamaApiState) : OllamaApiState × Nat :=
  let st1 := abortController st st.currentChatController
  let id := st1.nextControllerId
  ({ st1 with currentChatController := some id, nextControllerId := id + 1 }, id)

/-- The prologue of streamGenerate (src/unnamed/part_003 lines 222-234),
identical to the chat prologue on its own controller field. -/
def beginGenerateRequest (st : OllamaApiState) : OllamaApiState × Nat :=
  let st1 := abortController st st.currentGenerateController
  let id := st1.nextControllerId
  ({ st1 with currentGenerateController := some id, nextControllerId := id + 1 }, id)

/-- The prologue of pullModel (src/unnamed/part_003 lines 285-298),
identical to the chat prologue on its own controller field. -/
def beginPullRequest (st : OllamaApiState) : OllamaApiState × Nat :=
  let st1 := abortController st st.currentPullController
  let id := st1.nextControllerId
  ({ st1 with currentPullController := some id, nextControllerId := id + 1 }, id)

/-- How splitLines acts on a concatenation: the partial line of the first
part continues into the first line of the second part. -/
def splitAppend (a b : List (List Char) × List Char) : List (List Char) × List Char :=
  match b.1 with
  | [] => (a.1, a.2 ++ b.2)
  | l :: ls => (a.1 ++ (a.2 ++ l) :: ls, b.2)

lemma splitLines_append (xs ys : List Char) :
    splitLines (xs ++ ys) = splitAppend (splitLines xs) (splitLines ys) := by
  induction xs with
  | nil =>
    rcases hy : splitLines ys with ⟨bs, bp⟩
    cases bs <;> simp [splitLines, splitAppend, hy]
  | cons c xs ih =>
    rcases hx : splitLines xs with ⟨as, ap⟩
    rcases hy : splitLines ys with ⟨bs, bp⟩
    rw [hx, hy] at ih
    rw [List.cons_append]
    by_cases hc : c = '\n'
    · simp only [splitLines, if_pos hc, ih, hx]
      cases bs <;> simp [splitAppend]
    · simp only [splitLines, if_neg hc, ih, hx]
      cases as <;> cases bs <;> simp [splitAppend, consFirstLine]

lemma splitLines_of_no_newline (s : List Char) (h : '\n' ∉ s) : splitLines s = ([], s) := by
  induction s with
  | nil => rfl
  | cons c cs ih =>
    have hc : ¬ c = '\n' := fun hEq => h (hEq ▸ List.mem_cons_self c cs)
    have hcs : '\n' ∉ cs := fun hm => h (List.mem_cons_of_mem c hm)
    simp [splitLines, hc, ih hcs, consFirstLine]

lemma splitLines_snd_no_newline (s : List Char) : '\n' ∉ (splitLines s).2 := by
  induction s with
  | nil => simp [splitLines]
  | cons c cs ih =>
    by_cases hc : c = '\n'
    · simpa [splitLines, hc] using ih
    · rcases hs : splitLines cs with ⟨as, ap⟩
      rw [hs] at ih
      cases as with
      | nil =>
        simp only [splitLines, if_neg hc, hs, consFirstLine]
        intro hmem
        rcases List.mem_cons.mp hmem with h1 | h2
        · exact hc h1.symm
        · exact ih h2
      | cons a as2 => simpa [splitLines, hc, hs, consFirstLine] using ih

lemma processLines_append_ok {α : Type} (parse : List Char → Option α)
    (l₁ l₂ : List (List Char)) (vs : List α)
    (h : processLines parse l₁ = (vs, none)) :
    processLines parse (l₁ ++ l₂) =
      (vs ++ (processLines parse l₂).1, (processLines parse l₂).2) := by
  induction l₁ generalizing vs with
  | nil =>
    have hv : vs = [] := by
      have h1 := congrArg Prod.fst h
      simpa [processLines] using h1.symm
    subst hv
    simp
  | cons line rest ih =>
    rw [List.cons_append]
    by_cases ht : trimL line = []
    · simp only [processLines, if_pos ht] at h ⊢
      exact ih vs h
    · simp only [processLines, if_neg ht] at h ⊢
      obtain ⟨o, ho⟩ : ∃ o, parse line = o := ⟨_, rfl⟩
      rw [ho] at h ⊢
      cases o with
      | some v =>
        simp only [] at h ⊢
        rcases hr : processLines parse rest with ⟨vs2, e2⟩
        rw [hr] at h
        injection h with h1 h2
        cases e2 with
        | some b => exact Option.noConfusion h2
        | none =>
          simp only [ih vs2 hr, ← h1]
          simp
      | none =>
        simp only [] at h
        injection h with h1 h2
        exact Option.noConfusion h2

lemma processLines_append_err {α : Type} (parse : List Char → Option α)
    (l₁ l₂ : List (List Char)) (vs : List α) (bad : List Char)
    (h : processLines parse l₁ = (vs, some bad)) :
    processLines parse (l₁ ++ l₂) = (vs, some bad) := by
  induction l₁ generalizing vs with
  | nil =>
    have h2 := congrArg Prod.snd h
    simp [processLines] at h2
  | cons line rest ih =>
    rw [List.cons_append]
    by_cases ht : trimL line = []
    · simp only [processLines, if_pos ht] at h ⊢
      exact ih vs h
    · simp only [processLines, if_neg ht] at h ⊢
      obtain ⟨o, ho⟩ : ∃ o, parse line = o := ⟨_, rfl⟩
      rw [ho] at h ⊢
      cases o with
      | some v =>
        simp only [] at h ⊢
        rcases hr : processLines parse rest with ⟨vs2, e2⟩
        rw [hr] at h
        injection h with h1 h2
        cases e2 with
        | none => exact Option.noConfusion h2
        | some b =>
          have hb : b = bad := Option.some.inj h2
          rw [ih vs2 (by rw [hr, hb])]
          rw [← h1, hb]
      | none =>
        simp only [] at h ⊢
        injection h with h1 h2
        rw [← h1, ← Option.some.inj h2]

/-- One-shot description of the chat and generate decode loop applied to the
whole concatenated stream text: decode the completed lines, then flush or
fail according to how the stream ends. -/
def decodeSpec {α : Type} (parse : List Char → Option α) (s : List Char) (tail : StreamTail) :
    List α × LoopEnd :=
  let r := processLines parse (splitLines s).1
  match r.2 with
  | some bad => (r.1, LoopEnd.parseThrow bad)
  | none =>
    match tail with
    | StreamTail.failed e => (r.1, LoopEnd.readThrow e)
    | StreamTail.eos =>
      if trimL (splitLines s).2 = [] then (r.1, LoopEnd.completed)
      else
        match parse (trimL (splitLines s).2) with
        | some v => (r.1 ++ [v], LoopEnd.completed)
        | none => (r.1, LoopEnd.parseThrow (splitLines s).2)

lemma ndjsonLoop_eq_decodeSpec {α : Type} (parse : List Char → Option α)
    (chunks : List (List Char)) :
    ∀ (tail : StreamTail) (buffer : List Char), '\n' ∉ buffer →
      ndjsonLoop parse chunks tail buffer = decodeSpec parse (buffer ++ chunks.flatten) tail := by
  induction chunks with
  | nil =>
    intro tail buffer hbuf
    have hs : splitLines buffer = ([], buffer) := splitLines_of_no_newline buffer hbuf
    cases tail with
    | eos =>
      simp only [List.flatten_nil, List.append_nil, ndjsonLoop, decodeSpec, hs, processLines]
      by_cases ht : trimL buffer = []
      · simp [ht]
      · simp only [if_neg ht]
        cases hp : parse (trimL buffer) <;> simp
    | failed e => simp [ndjsonLoop, decodeSpec, hs, processLines]
  | cons c rest ih =>
    intro tail buffer hbuf
    rcases hA : splitLines (buffer ++ c) with ⟨ls, p⟩
    have hp : '\n' ∉ p := by
      have h2 := splitLines_snd_no_newline (buffer ++ c)
      rw [hA] at h2
      exact h2
    rcases hB : splitLines rest.flatten with ⟨bs, bp⟩
    have hjoin : buffer ++ (c :: rest).flatten = (buffer ++ c) ++ rest.flatten := by
      simp
    have hsplit : splitLines (buffer ++ (c :: rest).flatten) = splitAppend (ls, p) (bs, bp) := by
      rw [hjoin, splitLines_append, hA, hB]
    have hsplit2 : splitLines (p ++ rest.flatten) = splitAppend ([], p) (bs, bp) := by
      rw [splitLines_append, splitLines_of_no_newline p hp, hB]
    have hfst : (splitAppend (ls, p) (bs, bp)).1 = ls ++ (splitAppend ([], p) (bs, bp)).1 := by
      cases bs <;> simp [splitAppend]
    have hsnd : (splitAppend (ls, p) (bs, bp)).2 = (splitAppend ([], p) (bs, bp)).2 := by
      cases bs <;> simp [splitAppend]
    have ihp := ih tail p hp
    simp only [ndjsonLoop, hA]
    rcases hQ : processLines parse ls with ⟨vs, e⟩
    cases e with
    | some bad =>
      have herr := processLines_append_err parse ls (splitAppend ([], p) (bs, bp)).1 vs bad hQ
      simp only [hQ, decodeSpec, hsplit, hfst, herr]
    | none =>
      have hok := processLines_append_ok parse ls (splitAppend ([], p) (bs, bp)).1 vs hQ
      rw [ihp]
      simp only [hQ, decodeSpec, hsplit, hsplit2, hfst, hsnd, hok]
      rcases hQ2 : processLines parse (splitAppend ([], p) (bs, bp)).1 with ⟨vs2, e2⟩
      simp only [hQ2]
      cases e2 with
      | some bad2 => simp
      | none =>
        cases tail with
        | failed e => simp
        | eos =>
          by_cases htr : trimL (splitAppend ([], p) (bs, bp)).2 = []
          · simp [htr]
          · simp only [if_neg htr]
            cases hpv : parse (trimL (splitAppend ([], p) (bs, bp)).2) <;>
              simp [List.append_assoc]

lemma processPullLines_append_cont (parse : List Char → Option PullModelStatus)
    (emsg : List Char → List Char) (l₁ l₂ : List (List Char)) (vs : List PullModelStatus)
    (h : processPullLines parse emsg l₁ = (vs, false)) :
    processPullLines parse emsg (l₁ ++ l₂) =
      (vs ++ (processPullLines parse emsg l₂).1, (processPullLines parse emsg l₂).2) := by
  induction l₁ generalizing vs with
  | nil =>
    have hv : vs = [] := by
      have h1 := congrArg Prod.fst h
      simpa [processPullLines] using h1.symm
    subst hv
    simp
  | cons line rest ih =>
    rw [List.cons_append]
    by_cases ht : trimL line = []
    · simp only [processPullLines, if_pos ht] at h ⊢
      exact ih vs h
    · simp only [processPullLines, if_neg ht] at h ⊢
      obtain ⟨o, ho⟩ : ∃ o, parse line = o := ⟨_, rfl⟩
      rw [ho] at h ⊢
      cases o with
      | some statusUpdate =>
        simp only [] at h ⊢
        by_cases hterm :
            statusUpdate.status = ("success").toList ∨ errTruthy statusUpdate.error = true
        · rw [if_pos hterm] at h ⊢
          injection h with h1 h2
          exact Bool.noConfusion h2
        · rw [if_neg hterm] at h ⊢
          rcases hr : processPullLines parse emsg rest with ⟨vs2, b2⟩
          rw [hr] at h
          injection h with h1 h2
          cases b2 with
          | true => exact Bool.noConfusion h2
          | false => simp [ih vs2 hr, ← h1]
      | none =>
        simp only [] at h ⊢
        rcases hr : processPullLines parse emsg rest with ⟨vs2, b2⟩
        rw [hr] at h
        injection h with h1 h2
        cases b2 with
        | true => exact Bool.noConfusion h2
        | false => simp [ih vs2 hr, ← h1]

lemma processPullLines_append_stop (parse : List Char → Option PullModelStatus)
    (emsg : List Char → List Char) (l₁ l₂ : List (List Char)) (vs : List PullModelStatus)
    (h : processPullLines parse emsg l₁ = (vs, true)) :
    processPullLines parse emsg (l₁ ++ l₂) = (vs, true) := by
  induction l₁ generalizing vs with
  | nil =>
    have h2 := congrArg Prod.snd h
    simp [processPullLines] at h2
  | cons line rest ih =>
    rw [List.cons_append]
    by_cases ht : trimL line = []
    · simp only [processPullLines, if_pos ht] at h ⊢
      exact ih vs h
    · simp only [processPullLines, if_neg ht] at h ⊢
      obtain ⟨o, ho⟩ : ∃ o, parse line = o := ⟨_, rfl⟩
      rw [ho] at h ⊢
      cases o with
      | some statusUpdate =>
        simp only [] at h ⊢
        by_cases hterm :
            statusUpdate.status = ("success").toList ∨ errTruthy statusUpdate.error = true
        · rw [if_pos hterm] at h ⊢
          exact h
        · rw [if_neg hterm] at h ⊢
          rcases hr : processPullLines parse emsg rest with ⟨vs2, b2⟩
          rw [hr] at h
          injection h with h1 h2
          cases b2 with
          | false => exact Bool.noConfusion h2
          | true => simp [ih vs2 hr, ← h1]
      | none =>
        simp only [] at h ⊢
        rcases hr : processPullLines parse emsg rest with ⟨vs2, b2⟩
        rw [hr] at h
        injection h with h1 h2
        cases b2 with
        | false => exact Bool.noConfusion h2
        | true => simp [ih vs2 hr, ← h1]

/-- One-shot description of the pull decode loop applied to the whole
concatenated stream text. -/
def pullSpec (parse : List Char → Option PullModelStatus) (emsg : List Char → List Char)
    (s : List Char) (tail : StreamTail) : List PullModelStatus × LoopEnd :=
  let r := processPullLines parse emsg (splitLines s).1
  match r.2 with
  | true => (r.1, LoopEnd.completed)
  | false =>
    match tail with
    | StreamTail.failed e => (r.1, LoopEnd.readThrow e)
    | StreamTail.eos =>
      if trimL (splitLines s).2 = [] then (r.1, LoopEnd.completed)
      else
        match parse (trimL (splitLines s).2) with
        | some v => (r.1 ++ [v], LoopEnd.completed)
        | none => (r.1, LoopEnd.completed)

lemma pullLoop_eq_pullSpec (parse : List Char → Option PullModelStatus)
    (emsg : List Char → List Char) (chunks : List (List Char)) :
    ∀ (tail : StreamTail) (buffer : List Char), '\n' ∉ buffer →
      pullLoop parse emsg chunks tail buffer = pullSpec parse emsg (buffer ++ chunks.flatten) tail := by
  induction chunks with
  | nil =>
    intro tail buffer hbuf
    have hs : splitLines buffer = ([], buffer) := splitLines_of_no_newline buffer hbuf
    cases tail with
    | eos =>
      simp only [List.flatten_nil, List.append_nil, pullLoop, pullSpec, hs, processPullLines]
      by_cases ht : trimL buffer = []
      · simp [ht]
      · simp only [if_neg ht]
        cases hp : parse (trimL buffer) <;> simp
    | failed e => simp [pullLoop, pullSpec, hs, processPullLines]
  | cons c rest ih =>
    intro tail buffer hbuf
    rcases hA : splitLines (buffer ++ c) with ⟨ls, p⟩
    have hp : '\n' ∉ p := by
      have h2 := splitLines_snd_no_newline (buffer ++ c)
      rw [hA] at h2
      exact h2
    rcases hB : splitLines rest.flatten with ⟨bs, bp⟩
    have hjoin : buffer ++ (c :: rest).flatten = (buffer ++ c) ++ rest.flatten := by
      simp
    have hsplit : splitLines (buffer ++ (c :: rest).flatten) = splitAppend (ls, p) (bs, bp) := by
      rw [hjoin, splitLines_append, hA, hB]
    have hsplit2 : splitLines (p ++ rest.flatten) = splitAppend ([], p) (bs, bp) := by
      rw [splitLines_append, splitLines_of_no_newline p hp, hB]
    have hfst : (splitAppend (ls, p) (bs, bp)).1 = ls ++ (splitAppend ([], p) (bs, bp)).1 := by
      cases bs <;> simp [splitAppend]
    have hsnd : (splitAppend (ls, p) (bs, bp)).2 = (splitAppend ([], p) (bs, bp)).2 := by
      cases bs <;> simp [splitAppend]
    have ihp := ih tail p hp
    simp only [pullLoop, hA]
    rcases hQ : processPullLines parse emsg ls with ⟨vs, b⟩
    cases b with
    | true =>
      have hstop := processPullLines_append_stop parse emsg ls
        (splitAppend ([], p) (bs, bp)).1 vs hQ
      simp only [hQ, pullSpec, hsplit, hfst, hstop]
    | false =>
      have hcont := processPullLines_append_cont parse emsg ls
        (splitAppend ([], p) (bs, bp)).1 vs hQ
      rw [ihp]
      simp only [hQ, pullSpec, hsplit, hsplit2, hfst, hsnd, hcont]
      rcases hQ2 : processPullLines parse emsg (splitAppend ([], p) (bs, bp)).1 with ⟨vs2, b2⟩
      simp only [hQ2]
      cases b2 with
      | true => simp
      | false =>
        cases tail with
        | failed e => simp
        | eos =>
          by_cases htr : trimL (splitAppend ([], p) (bs, bp)).2 = []
          · simp [htr]
          · simp only [if_neg htr]
            cases hpv : parse (trimL (splitAppend ([], p) (bs, bp)).2) <;>
              simp [List.append_assoc]

/-- C5: the streaming chat decoder yields the same sequence of decoded
objects for any two chunkings of the byte stream whose concatenated text is
the same; the outcome depends only on the concatenation, not on the chunk
boundaries. -/
theorem C5_chunking_independence {α : Type} (parse : List Char → Option α)
    (cs₁ cs₂ : List (List Char)) (h : cs₁.flatten = cs₂.flatten) :
    streamChatRun parse cs₁ StreamTail.eos = streamChatRun parse cs₂ StreamTail.eos := by
  unfold streamChatRun
  rw [ndjsonLoop_eq_decodeSpec parse cs₁ StreamTail.eos [] (by simp),
      ndjsonLoop_eq_decodeSpec parse cs₂ StreamTail.eos [] (by simp)]
  rw [List.nil_append, List.nil_append, h]

/-- Witness for C5 at a concrete split: the same text chunked two ways gives
the same run of the decoder. -/
theorem C5_chunking_independence_witness :
    ([['a'], ['b', '\n', 'c']] : List (List Char)).flatten =
      ([['a', 'b'], ['\n'], ['c']] : List (List Char)).flatten ∧
    streamChatRun (fun l => some l) [['a'], ['b', '\n', 'c']] StreamTail.eos =
      streamChatRun (fun l => some l) [['a', 'b'], ['\n'], ['c']] StreamTail.eos :=
  ⟨by decide, C5_chunking_independence (fun l => some l) _ _ (by decide)⟩

/-- C6: when the stream ends with a nonempty final line that has no
terminating newline, the residual buffer is flushed exactly once at end of
stream and its decoded object is the last one yielded. -/
theorem C6_final_partial_line_flushed {α : Type} (parse : List Char → Option α)
    (chunks : List (List Char)) (vs : List α) (v : α)
    (hlines : processLines parse (splitLines chunks.flatten).1 = (vs, none))
    (hne : trimL (splitLines chunks.flatten).2 ≠ [])
    (hv : parse (trimL (splitLines chunks.flatten).2) = some v) :
    streamChatRun parse chunks StreamTail.eos = (vs ++ [v], StreamOutcome.completed) := by
  unfold streamChatRun
  rw [ndjsonLoop_eq_decodeSpec parse chunks StreamTail.eos [] (by simp)]
  simp only [List.nil_append, decodeSpec, hlines, hv, if_neg hne]
  rfl

/-- Witness for C6: a stream whose text ends without a newline still yields
the final object after end of stream. -/
theorem C6_final_partial_line_flushed_witness :
    processLines (fun l => some l) (splitLines ([['a', '\n', 'b']] : List (List Char)).flatten).1 =
      ([['a']], none) ∧
    trimL (splitLines ([['a', '\n', 'b']] : List (List Char)).flatten).2 ≠ [] ∧
    (fun l => some l) (trimL (splitLines ([['a', '\n', 'b']] : List (List Char)).flatten).2) =
      some ['b'] ∧
    streamChatRun (fun l => some l) [['a', '\n', 'b']] StreamTail.eos =
      ([['a']] ++ [['b']], StreamOutcome.completed) :=
  ⟨by decide, by decide, by decide,
    C6_final_partial_line_flushed (fun l => some l) [['a', '\n', 'b']] [['a']] ['b']
      (by decide) (by decide) (by decide)⟩

/-- C7: deleting a conversation removes, in one atomic transaction, the
conversation row and exactly the messages with its conversationId: a
committed run makes a subsequent loadMessages for the id empty and keeps no
conversation row with the id, an interrupted run leaves the database
unchanged, and either way no message is left orphaned. -/
theorem C7_delete_conversation_atomic (db : DB) (cid : Nat) :
    (loadMessages (handleDeleteConversation db cid false) cid = [] ∧
      (∀ c ∈ (handleDeleteConversation db cid false).conversations, c.id ≠ cid) ∧
      (∀ m, m ∈ (handleDeleteConversation db cid false).messages ↔
        m ∈ db.messages ∧ m.conversationId ≠ cid) ∧
      (∀ c, c ∈ (handleDeleteConversation db cid false).conversations ↔
        c ∈ db.conversations ∧ c.id ≠ cid)) ∧
    handleDeleteConversation db cid true = db ∧
    (∀ (interrupted : Bool),
      (∀ m ∈ db.messages, ∃ c ∈ db.conversations, c.id = m.conversationId) →
      ∀ m ∈ (handleDeleteConversation db cid interrupted).messages,
        ∃ c ∈ (handleDeleteConversation db cid interrupted).conversations,
          c.id = m.conversationId) := by
  have hmem : ∀ m, m ∈ (handleDeleteConversation db cid false).messages ↔
      m ∈ db.messages ∧ m.conversationId ≠ cid := by
    intro m
    simp [handleDeleteConversation, dexieTransaction, List.mem_filter]
  have hcmem : ∀ c, c ∈ (handleDeleteConversation db cid false).conversations ↔
      c ∈ db.conversations ∧ c.id ≠ cid := by
    intro c
    simp [handleDeleteConversation, dexieTransaction, List.mem_filter]
  refine ⟨⟨?_, ?_, hmem, hcmem⟩, ?_, ?_⟩
  · have hfilter : (handleDeleteConversation db cid false).messages.filter
        (fun m => m.conversationId == cid) = [] := by
      rw [List.filter_eq_nil_iff]
      intro m hm
      have h2 := (hmem m).mp hm
      simp [h2.2]
    rw [loadMessages, hfilter]
    simp [List.mergeSort]
  · intro c hc
    exact ((hcmem c).mp hc).2
  · simp [handleDeleteConversation, dexieTransaction]
  · intro interrupted hinv m hm
    cases interrupted with
    | true =>
      simp only [handleDeleteConversation, dexieTransaction, if_pos rfl] at hm ⊢
      exact hinv m hm
    | false =>
      have h2 := (hmem m).mp hm
      obtain ⟨c, hc, hcid⟩ := hinv m h2.1
      refine ⟨c, (hcmem c).mpr ⟨hc, ?_⟩, hcid⟩
      rw [hcid]
      exact h2.2

/-- C8: loadConversations returns the conversations table sorted by
updatedAt descending, and loadMessages returns exactly the messages with the
given conversationId sorted by createdAt ascending. -/
theorem C8_listing_orders (db : DB) (cid : Nat) :
    (loadConversations db).Perm db.conversations ∧
    (loadConversations db).Pairwise (fun a b => b.updatedAt ≤ a.updatedAt) ∧
    (loadMessages db cid).Perm (db.messages.filter fun m => m.conversationId == cid) ∧
    (loadMessages db cid).Pairwise (fun a b => a.createdAt ≤ b.createdAt) ∧
    (∀ m, m ∈ loadMessages db cid ↔ m ∈ db.messages ∧ m.conversationId = cid) := by
  refine ⟨?_, ?_, ?_, ?_, ?_⟩
  · exact (List.reverse_perm _).trans (List.mergeSort_perm _ _)
  · have hs := @List.sorted_mergeSort IConversation
      (fun a b => a.updatedAt ≤ b.updatedAt)
      (by intro a b c hab hbc; simp only [decide_eq_true_eq] at *; omega)
      (by intro a b; simpa using Nat.le_total a.updatedAt b.updatedAt)
      db.conversations
    rw [loadConversations, List.pairwise_reverse]
    exact hs.imp (by intro a b hle; simpa using hle)
  · exact List.mergeSort_perm _ _
  · have hs := @List.sorted_mergeSort IMessage
      (fun a b => a.createdAt ≤ b.createdAt)
      (by intro a b c hab hbc; simp only [decide_eq_true_eq] at *; omega)
      (by intro a b; simpa using Nat.le_total a.createdAt b.createdAt)
      (db.messages.filter fun m => m.conversationId == cid)
    exact hs.imp (by intro a b hle; simpa using hle)
  · intro m
    constructor
    · intro hm
      have h2 := (List.mergeSort_perm _ _).mem_iff.mp hm
      simpa [List.mem_filter] using h2
    · intro hm
      apply (List.mergeSort_perm _ _).mem_iff.mpr
      simp [List.mem_filter, hm.1, hm.2]

/-- C2 (amended): a line that fails to parse is a fatal decode error for the
chat and generate loops — the generator throws and yields nothing after the
malformed line — but the pull loop instead yields an error-status object for
the malformed line and continues decoding the remaining lines. -/
theorem C2_malformed_line_handling :
    (∀ {α : Type} (parse : List Char → Option α) (chunks : List (List Char))
        (vs : List α) (bad : List Char),
      processLines parse (splitLines chunks.flatten).1 = (vs, some bad) →
      streamChatRun parse chunks StreamTail.eos = (vs, StreamOutcome.threwParse bad) ∧
      streamGenerateRun parse chunks StreamTail.eos = (vs, StreamOutcome.threwParse bad)) ∧
    (∀ (parse : List Char → Option PullModelStatus) (emsg : List Char → List Char)
        (bad : List Char) (rest : List (List Char)),
      parse bad = none → trimL bad ≠ [] →
      processPullLines parse emsg (bad :: rest) =
        (⟨("error parsing line").toList, some (emsg bad)⟩ ::
           (processPullLines parse emsg rest).1,
         (processPullLines parse emsg rest).2)) := by
  constructor
  · intro α parse chunks vs bad h
    have hrun : ndjsonLoop parse chunks StreamTail.eos [] =
        (vs, LoopEnd.parseThrow bad) := by
      rw [ndjsonLoop_eq_decodeSpec parse chunks StreamTail.eos [] (by simp)]
      simp only [List.nil_append, decodeSpec, h]
    constructor
    · unfold streamChatRun
      rw [hrun]
      rfl
    · unfold streamGenerateRun
      rw [hrun]
      rfl
  · intro parse emsg bad rest hparse htrim
    simp [processPullLines, htrim, hparse]

/-- Concrete stand-in for JSON.parse in the pull counterexample: exactly the
line ok parses, to a non-terminal status. -/
def pullParseDemo (l : List Char) : Option PullModelStatus :=
  if l = ("ok").toList then some ⟨("pulling").toList, none⟩ else none

/-- Concrete stand-in for the runtime parse-error message text. -/
def pullEmsgDemo (_l : List Char) : List Char := ("Unexpected token").toList

/-- Counterexample to C2 as stated: the pull decode loop does not treat a
malformed line as fatal. On a stream whose first line is malformed, the pull
generator yields an error-status object for it and then still yields the
object decoded from the following line, ending normally — a decoded object
is yielded after the malformed line. -/
theorem C2_counterexample_pull_continues :
    pullModelRun pullParseDemo pullEmsgDemo [("bad\nok\n").toList] StreamTail.eos =
      ([⟨("error parsing line").toList, some (("Unexpected token").toList)⟩,
        ⟨("pulling").toList, none⟩], StreamOutcome.completed) := by
  decide

/-- Evidence for C3: the prologue of each request category does abort the
outstanding controller before issuing the new request under a fresh
controller, but the abort is not observed as a distinguished signal. Every
abort call of the service passes a plain string reason, so per the DOM
contract the aborted read rejects with that string; a string has no name
property, the catch test against the AbortError name fails, and each
generator rethrows instead of returning silently — the consumer of the
aborted stream sees a thrown error (and the pull generator even yields an
extra error status first). -/
theorem C3_abort_reason_string_rethrows :
    (beginChatRequest ⟨some 7, none, none, [], 10⟩).1.abortedIds = [7] ∧
    (beginChatRequest ⟨some 7, none, none, [], 10⟩).1.currentChatController = some 10 ∧
    streamChatRun (fun l => some l) [['a', '\n']]
        (StreamTail.failed (JsError.stringReason (("New chat request started").toList))) =
      ([['a']],
       StreamOutcome.threw (JsError.stringReason (("New chat request started").toList))) ∧
    streamGenerateRun (fun l => some l) [['a', '\n']]
        (StreamTail.failed (JsError.stringReason (("New generate request started").toList))) =
      ([['a']],
       StreamOutcome.threw (JsError.stringReason (("New generate request started").toList))) ∧
    pullModelRun pullParseDemo pullEmsgDemo [("ok\n").toList]
        (StreamTail.failed (JsError.stringReason (("New pull request started").toList))) =
      ([⟨("pulling").toList, none⟩,
        ⟨("error").toList, some (("Unknown pull error").toList)⟩],
       StreamOutcome.threw (JsError.stringReason (("New pull request started").toList))) :=
  ⟨rfl, rfl, by decide, by decide, by decide⟩

/-- Witness for the amended C2 at concrete inputs: a malformed first line is
fatal for chat and generate, while the pull loop yields an error object and
continues. -/
theorem C2_malformed_line_handling_witness :
    (processLines (fun l => if l = ['1'] then some (1 : Nat) else none)
        (splitLines ([['x', '\n', '1', '\n']] : List (List Char)).flatten).1 =
      ([], some ['x']) ∧
      streamChatRun (fun l => if l = ['1'] then some (1 : Nat) else none)
        [['x', '\n', '1', '\n']] StreamTail.eos = ([], StreamOutcome.threwParse ['x']) ∧
      streamGenerateRun (fun l => if l = ['1'] then some (1 : Nat) else none)
        [['x', '\n', '1', '\n']] StreamTail.eos = ([], StreamOutcome.threwParse ['x'])) ∧
    (pullParseDemo (("bad").toList) = none ∧ trimL (("bad").toList) ≠ [] ∧
      processPullLines pullParseDemo pullEmsgDemo [("bad").toList, ("ok").toList] =
        (⟨("error parsing line").toList, some (pullEmsgDemo (("bad").toList))⟩ ::
           (processPullLines pullParseDemo pullEmsgDemo [("ok").toList]).1,
         (processPullLines pullParseDemo pullEmsgDemo [("ok").toList]).2)) :=
  ⟨⟨by decide,
    (C2_malformed_line_handling.1 (fun l => if l = ['1'] then some (1 : Nat) else none)
      [['x', '\n', '1', '\n']] [] ['x'] (by decide)).1,
    (C2_malformed_line_handling.1 (fun l => if l = ['1'] then some (1 : Nat) else none)
      [['x', '\n', '1', '\n']] [] ['x'] (by decide)).2⟩,
   by decide, by decide,
   C2_malformed_line_handling.2 pullParseDemo pullEmsgDemo (("bad").toList)
     [("ok").toList] (by decide) (by decide)⟩

lemma filter_not_map_eq_filterMap {α β : Type} (p : α → Bool) (g : α → β) (l : List α) :
    (l.filter fun a => !(p a)).map g =
      l.filterMap fun a => if p a then none else some (g a) := by
  induction l with
  | nil => rfl
  | cons a l ih => cases hpa : p a <;> simp [hpa, ih]

lemma delIds_contains_eq (db : DB) (M : IMessage)
    (hnodup : (db.messages.map IMessage.id).Nodup) :
    ∀ m ∈ db.messages,
      ((((db.messagesWhereConversation M.conversationId).filter
          (fun x => decide (M.createdAt < x.createdAt))).map IMessage.id).contains m.id) =
        ((m.conversationId == M.conversationId) && decide (M.createdAt < m.createdAt)) := by
  intro m hm
  rw [Bool.eq_iff_iff]
  constructor
  · intro hcont
    have hmem2 : m.id ∈ (((db.messagesWhereConversation M.conversationId).filter
        (fun x => decide (M.createdAt < x.createdAt))).map IMessage.id) :=
      List.elem_iff.mp hcont
    obtain ⟨a, ha, haid⟩ := List.mem_map.mp hmem2
    rw [List.mem_filter] at ha
    obtain ⟨ha1, ha2⟩ := ha
    rw [DB.messagesWhereConversation, List.mem_filter] at ha1
    obtain ⟨haDb, haConv⟩ := ha1
    have heq : a = m := List.inj_on_of_nodup_map hnodup haDb hm haid
    subst heq
    rw [haConv, ha2]
    rfl
  · intro hand
    obtain ⟨h1, h2⟩ : m.conversationId = M.conversationId ∧ M.createdAt < m.createdAt := by
      simpa using hand
    apply List.elem_iff.mpr
    apply List.mem_map.mpr
    refine ⟨m, ?_, rfl⟩
    rw [List.mem_filter, DB.messagesWhereConversation, List.mem_filter]
    exact ⟨⟨hm, by simpa using h1⟩, by simpa using h2⟩

/-- C1: editing a user message deletes exactly the messages of the same
conversation whose createdAt is strictly greater than the original createdAt
of the edited message, rewrites the edited message with the new content and
the refreshed timestamp, and leaves every other message and the whole
conversations table unchanged. -/
theorem C1_edit_truncates_after (db : DB) (msgsState : List IMessage) (messageId : Nat)
    (newContent : List Char) (now : Nat) (M : IMessage)
    (hfind : msgsState.find? (fun m => m.id == messageId) = some M)
    (hrole : M.role = Role.user)
    (_hmem : M ∈ db.messages)
    (hnodup : (db.messages.map IMessage.id).Nodup) :
    (handleEditMessage db msgsState messageId newContent now).messages =
      db.messages.filterMap (fun m =>
        if m.conversationId = M.conversationId ∧ M.createdAt < m.createdAt then none
        else if m.id = messageId then
          some { m with content := newContent, createdAt := now }
        else some m) ∧
    (handleEditMessage db msgsState messageId newContent now).conversations =
      db.conversations := by
  have hrole2 : (M.role != Role.user) = false := by
    rw [hrole]
    rfl
  have hdb1 : (if ((((db.messagesWhereConversation M.conversationId).filter
          (fun x => decide (M.createdAt < x.createdAt))).map IMessage.id).length > 0) then
        db.bulkDeleteMessages (((db.messagesWhereConversation M.conversationId).filter
          (fun x => decide (M.createdAt < x.createdAt))).map IMessage.id)
      else db).messages =
      db.messages.filter (fun m =>
        !((m.conversationId == M.conversationId) && decide (M.createdAt < m.createdAt))) := by
    by_cases hlen : ((((db.messagesWhereConversation M.conversationId).filter
        (fun x => decide (M.createdAt < x.createdAt))).map IMessage.id).length > 0)
    · rw [if_pos hlen, DB.bulkDeleteMessages]
      exact List.filter_congr (fun m hm => by rw [delIds_contains_eq db M hnodup m hm])
    · rw [if_neg hlen]
      have hnil : (((db.messagesWhereConversation M.conversationId).filter
          (fun x => decide (M.createdAt < x.createdAt))).map IMessage.id) = [] := by
        rcases hl : (((db.messagesWhereConversation M.conversationId).filter
            (fun x => decide (M.createdAt < x.createdAt))).map IMessage.id) with _ | ⟨a, l⟩
        · exact hl
        · rw [hl] at hlen
          simp at hlen
      symm
      rw [List.filter_eq_self]
      intro m hm
      have hc := delIds_contains_eq db M hnodup m hm
      rw [hnil] at hc
      simp only [List.contains, List.elem] at hc
      rw [← hc]
      rfl
  constructor
  · simp only [handleEditMessage, hfind, hrole2, Bool.false_eq_true, if_false,
      DB.updateMessage]
    rw [hdb1, filter_not_map_eq_filterMap]
    apply List.filterMap_congr
    intro m _
    by_cases h1 : m.conversationId = M.conversationId ∧ M.createdAt < m.createdAt
    · rw [if_pos h1, if_pos (by simp [h1.1, h1.2])]
    · rw [if_neg h1, if_neg (by simpa using h1)]
      by_cases h2 : m.id = messageId
      · rw [if_pos h2, if_pos (by simp [h2])]
      · rw [if_neg h2, if_neg (by simpa using h2)]
  · simp only [handleEditMessage, hfind, hrole2, Bool.false_eq_true, if_false,
      DB.updateMessage, DB.bulkDeleteMessages]
    split <;> rfl

/-- Concatenation, in arrival order, of the content fields of a chunk list
(a missing content field contributes nothing). -/
def contentsJoin : List StreamChunk → List Char
  | [] => []
  | c :: rest => c.content.getD [] ++ contentsJoin rest

lemma consumeChunks_complete (cs : List StreamChunk) (last : StreamChunk)
    (hcs : ∀ c ∈ cs, c.done = false) (hlast : last.done = true) :
    ∀ acc : List Char, consumeChunks (cs ++ [last]) acc =
      (acc ++ contentsJoin (cs ++ [last]), true, doneReasonError last) := by
  induction cs with
  | nil =>
    intro acc
    simp only [List.nil_append, consumeChunks, hlast, contentsJoin, if_true]
    cases hc : last.content with
    | none => simp
    | some s =>
      by_cases hs : s = []
      · simp [hs]
      · simp [hs]
  | cons c cs ih =>
    intro acc
    have hcdone : c.done = false := hcs c (List.mem_cons_self c cs)
    have hcs2 : ∀ x ∈ cs, x.done = false := fun x hx => hcs x (List.mem_cons_of_mem c hx)
    simp only [List.cons_append, consumeChunks, hcdone, Bool.false_eq_true, if_false,
      List.append_eq]
    rw [ih hcs2]
    simp only [contentsJoin]
    cases hc : c.content with
    | none => simp
    | some s =>
      by_cases hs : s = []
      · simp [hs]
      · simp [hs]

/-- C10: when the input is blank after trimming or a request is already in
flight, handleSendMessage is a complete no-op — the store is untouched, no
request is issued and the error indicator keeps its prior value; when those
guards pass but no model is selected, the only effect is setting the
model-selection error, with the store untouched and no request issued. -/
theorem C10_send_guards_no_effect (env : SendEnv) (db : DB) (clock : Nat)
    (chunks : List StreamChunk) (streamErr : Option (List Char)) :
    ((trimL env.inputMessage = [] ∨ env.isLoading = true) →
      handleSendMessage env db clock chunks streamErr =
        ⟨db, env.priorError, false, clock⟩) ∧
    (trimL env.inputMessage ≠ [] → env.isLoading = false → env.selectedModelName = [] →
      handleSendMessage env db clock chunks streamErr =
        ⟨db, some (("Please select a model first.").toList), false, clock⟩) := by
  constructor
  · intro hguard
    rw [handleSendMessage, if_pos hguard]
  · intro htrim hload hmodel
    have hguard : ¬(trimL env.inputMessage = [] ∨ env.isLoading = true) := by
      simp [htrim, hload]
    rw [handleSendMessage, if_neg hguard, if_pos hmodel]

/-- Witness for C10 at concrete inputs: a whitespace-only input changes
nothing, and a missing model only sets the error text. -/
theorem C10_send_guards_no_effect_witness :
    (trimL [' '] = [] ∨ false = true) ∧
    handleSendMessage ⟨[' '], false, ['m'], none, none, none⟩ ⟨[], [], 1, 1⟩ 0 [] none =
      ⟨⟨[], [], 1, 1⟩, none, false, 0⟩ ∧
    (trimL ['h', 'i'] ≠ [] ∧
      handleSendMessage ⟨['h', 'i'], false, [], none, none, none⟩ ⟨[], [], 1, 1⟩ 0 [] none =
        ⟨⟨[], [], 1, 1⟩, some (("Please select a model first.").toList), false, 0⟩) :=
  ⟨Or.inl (by decide),
   (C10_send_guards_no_effect ⟨[' '], false, ['m'], none, none, none⟩
       ⟨[], [], 1, 1⟩ 0 [] none).1 (Or.inl (by decide)),
   by decide,
   (C10_send_guards_no_effect ⟨['h', 'i'], false, [], none, none, none⟩
       ⟨[], [], 1, 1⟩ 0 [] none).2 (by decide) rfl rfl⟩

/-- C9: a first send into a new conversation with nonblank text creates the
conversation with a title that is the first five space-separated words of
the message, with a trailing ellipsis exactly when the message has more than
five words, persists the user message, and persists at stream completion an
assistant message whose content is the concatenation, in arrival order, of
the content fields of all streamed chunks. -/
theorem C9_first_send_title_and_stream_content (env : SendEnv) (db : DB) (clock : Nat)
    (cs : List StreamChunk) (last : StreamChunk) (streamErr : Option (List Char))
    (htrim : trimL env.inputMessage ≠ [])
    (hload : env.isLoading = false)
    (hmodel : env.selectedModelName ≠ [])
    (hconv : env.conversation = none)
    (hcs : ∀ c ∈ cs, c.done = false)
    (hlast : last.done = true) :
    (∃ conv ∈ (handleSendMessage env db clock (cs ++ [last]) streamErr).db.conversations,
      conv.id = db.nextConvId ∧ conv.model = env.selectedModelName ∧
      conv.title = joinWords ' ' ((splitOnChar ' ' (trimL env.inputMessage)).take 5) ++
        (if (splitOnChar ' ' (trimL env.inputMessage)).length > 5
         then ("...").toList else [])) ∧
    (∃ msg ∈ (handleSendMessage env db clock (cs ++ [last]) streamErr).db.messages,
      msg.id = db.nextMsgId ∧ msg.conversationId = db.nextConvId ∧
      msg.role = Role.user ∧ msg.content = trimL env.inputMessage) ∧
    (∃ msg ∈ (handleSendMessage env db clock (cs ++ [last]) streamErr).db.messages,
      msg.id = db.nextMsgId + 1 ∧ msg.conversationId = db.nextConvId ∧
      msg.role = Role.assistant ∧ msg.content = contentsJoin (cs ++ [last])) := by
  have hguard : ¬(trimL env.inputMessage = [] ∨ env.isLoading = true) := by
    simp [htrim, hload]
  have hcons := consumeChunks_complete cs last hcs hlast []
  simp only [handleSendMessage, if_neg hguard, if_neg hmodel, hconv,
    DB.addConversation, DB.updateConversation, DB.addMessage, DB.updateMessage, hcons]
  cases streamErr with
  | none =>
    refine ⟨?_, ?_, ?_⟩
    · refine ⟨_, List.mem_map.mpr
        ⟨_, List.mem_append_right _ (List.mem_singleton.mpr rfl), rfl⟩, ?_⟩
      simp [generateTitle]
    · refine ⟨_, List.mem_map.mpr
        ⟨_, List.mem_append_left _ (List.mem_append_right _ (List.mem_singleton.mpr rfl)),
          rfl⟩, ?_⟩
      simp
    · refine ⟨_, List.mem_map.mpr
        ⟨_, List.mem_append_right _ (List.mem_singleton.mpr rfl), rfl⟩, ?_⟩
      simp
  | some e =>
    refine ⟨?_, ?_, ?_⟩
    · refine ⟨_, List.mem_map.mpr
        ⟨_, List.mem_append_right _ (List.mem_singleton.mpr rfl), rfl⟩, ?_⟩
      simp [generateTitle]
    · refine ⟨_, List.mem_map.mpr
        ⟨_, List.mem_append_left _ (List.mem_append_right _ (List.mem_singleton.mpr rfl)),
          rfl⟩, ?_⟩
      simp
    · refine ⟨_, List.mem_map.mpr
        ⟨_, List.mem_append_right _ (List.mem_singleton.mpr rfl), rfl⟩, ?_⟩
      simp

/-- Concrete message state for the edit witness. -/
def editDemoMsgs : List IMessage :=
  [⟨1, 1, Role.user, ("hello").toList, 10⟩,
   ⟨2, 1, Role.assistant, ("resp").toList, 20⟩,
   ⟨3, 1, Role.user, ("again").toList, 30⟩,
   ⟨4, 2, Role.user, ("other").toList, 40⟩]

/-- Concrete database for the edit witness. -/
def editDemoDB : DB := ⟨[], editDemoMsgs, 1, 5⟩

/-- Witness for C1: editing the first user message of a four-message store
truncates the two later messages of its conversation and leaves the message
of the other conversation alone. -/
theorem C1_edit_truncates_after_witness :
    (editDemoMsgs.find? (fun m => m.id == 1) =
        some ⟨1, 1, Role.user, ("hello").toList, 10⟩ ∧
      (⟨1, 1, Role.user, ("hello").toList, 10⟩ : IMessage).role = Role.user ∧
      (⟨1, 1, Role.user, ("hello").toList, 10⟩ : IMessage) ∈ editDemoDB.messages ∧
      (editDemoDB.messages.map IMessage.id).Nodup) ∧
    (handleEditMessage editDemoDB editDemoMsgs 1 (("new").toList) 50).messages =
      editDemoDB.messages.filterMap (fun m =>
        if m.conversationId =
            (⟨1, 1, Role.user, ("hello").toList, 10⟩ : IMessage).conversationId ∧
            (⟨1, 1, Role.user, ("hello").toList, 10⟩ : IMessage).createdAt < m.createdAt
        then none
        else if m.id = 1 then some { m with content := ("new").toList, createdAt := 50 }
        else some m) ∧
    (handleEditMessage editDemoDB editDemoMsgs 1 (("new").toList) 50).conversations =
      editDemoDB.conversations :=
  ⟨⟨by decide, rfl, by decide, by decide⟩,
   (C1_edit_truncates_after editDemoDB editDemoMsgs 1 (("new").toList) 50
     ⟨1, 1, Role.user, ("hello").toList, 10⟩ (by decide) rfl (by decide) (by decide)).1,
   (C1_edit_truncates_after editDemoDB editDemoMsgs 1 (("new").toList) 50
     ⟨1, 1, Role.user, ("hello").toList, 10⟩ (by decide) rfl (by decide) (by decide)).2⟩

/-- Concrete database for the delete witness: two conversations with one
message each. -/
def delDemoDB : DB :=
  ⟨[⟨1, ("t1").toList, ['m'], 0, 0⟩, ⟨2, ("t2").toList, ['m'], 0, 1⟩],
   [⟨1, 1, Role.user, ['a'], 0⟩, ⟨2, 2, Role.user, ['b'], 1⟩], 3, 3⟩

/-- Witness for C7: deleting conversation 1 of the two-conversation store
empties its message listing, an interrupted run changes nothing, and no
orphan is created. -/
theorem C7_delete_conversation_atomic_witness :
    (∀ m ∈ delDemoDB.messages, ∃ c ∈ delDemoDB.conversations, c.id = m.conversationId) ∧
    loadMessages (handleDeleteConversation delDemoDB 1 false) 1 = [] ∧
    handleDeleteConversation delDemoDB 1 true = delDemoDB ∧
    (∀ m ∈ (handleDeleteConversation delDemoDB 1 false).messages,
      ∃ c ∈ (handleDeleteConversation delDemoDB 1 false).conversations,
        c.id = m.conversationId) :=
  ⟨by decide,
   (C7_delete_conversation_atomic delDemoDB 1).1.1,
   (C7_delete_conversation_atomic delDemoDB 1).2.1,
   (C7_delete_conversation_atomic delDemoDB 1).2.2 false (by decide)⟩

/-- Concrete render environment for the send witnesses: a fresh send of a
six-word message with a model selected. -/
def sendDemoEnv : SendEnv := ⟨("a b c d e f").toList, false, ['m'], none, none, none⟩

/-- Concrete streamed chunks for the send witness: one content chunk, then a
done chunk that also carries content. -/
def sendDemoCs : List StreamChunk := [⟨some ['x'], false, none⟩]

/-- The final chunk of the send witness stream. -/
def sendDemoLast : StreamChunk := ⟨some ['y'], true, some (("stop").toList)⟩

/-- Witness for C9: the six-word first message gives a five-word title with
an ellipsis, and the assistant message persists the concatenated chunk
contents. -/
theorem C9_first_send_title_and_stream_content_witness :
    (trimL sendDemoEnv.inputMessage ≠ [] ∧ sendDemoEnv.isLoading = false ∧
      sendDemoEnv.selectedModelName ≠ [] ∧ sendDemoEnv.conversation = none ∧
      (∀ c ∈ sendDemoCs, c.done = false) ∧ sendDemoLast.done = true) ∧
    ((∃ conv ∈ (handleSendMessage sendDemoEnv ⟨[], [], 1, 1⟩ 0
          (sendDemoCs ++ [sendDemoLast]) none).db.conversations,
        conv.id = (⟨[], [], 1, 1⟩ : DB).nextConvId ∧
        conv.model = sendDemoEnv.selectedModelName ∧
        conv.title = joinWords ' ' ((splitOnChar ' ' (trimL sendDemoEnv.inputMessage)).take 5) ++
          (if (splitOnChar ' ' (trimL sendDemoEnv.inputMessage)).length > 5
           then ("...").toList else [])) ∧
      (∃ msg ∈ (handleSendMessage sendDemoEnv ⟨[], [], 1, 1⟩ 0
          (sendDemoCs ++ [sendDemoLast]) none).db.messages,
        msg.id = (⟨[], [], 1, 1⟩ : DB).nextMsgId ∧
        msg.conversationId = (⟨[], [], 1, 1⟩ : DB).nextConvId ∧
        msg.role = Role.user ∧ msg.content = trimL sendDemoEnv.inputMessage) ∧
      (∃ msg ∈ (handleSendMessage sendDemoEnv ⟨[], [], 1, 1⟩ 0
          (sendDemoCs ++ [sendDemoLast]) none).db.messages,
        msg.id = (⟨[], [], 1, 1⟩ : DB).nextMsgId + 1 ∧
        msg.conversationId = (⟨[], [], 1, 1⟩ : DB).nextConvId ∧
        msg.role = Role.assistant ∧
        msg.content = contentsJoin (sendDemoCs ++ [sendDemoLast]))) :=
  ⟨⟨by decide, rfl, by decide, rfl, by decide, rfl⟩,
   C9_first_send_title_and_stream_content sendDemoEnv ⟨[], [], 1, 1⟩ 0
     sendDemoCs sendDemoLast none (by decide) rfl (by decide) rfl (by decide) rfl⟩

/-- Concrete render environment exhibiting the send error-path behavior: a
fresh send, so the render-time currentAssistantMessageId captured by the
closure is null. -/
def staleDemoEnv : SendEnv := ⟨("Hello").toList, false, ['m'], none, none, none⟩

/-- Evidence for C4: when the stream throws after the assistant placeholder
was inserted, the placeholder row (key 2, content dot-dot-dot) is still in
the messages store afterwards. The catch block of handleSendMessage deletes
the key held by the render-time currentAssistantMessageId state constant,
which is null during a fresh send, instead of the local assistantMsgId, so
the store deletion never runs. -/
theorem C4_placeholder_survives_stream_error :
    (handleSendMessage staleDemoEnv ⟨[], [], 1, 1⟩ 0
        [⟨some ['H'], false, none⟩] (some (("network error").toList))).db.messages =
      [⟨1, 1, Role.user, ("Hello").toList, 1⟩,
       ⟨2, 1, Role.assistant, ("...").toList, 2⟩] ∧
    (handleSendMessage staleDemoEnv ⟨[], [], 1, 1⟩ 0
        [⟨some ['H'], false, none⟩] (some (("network error").toList))).error =
      some (("network error").toList) := by
  decide
